import Mathlib

/-!
Verification of the worktree-launcher CLI (a git-worktree management tool).

The development shallowly embeds the TypeScript sources:
  src/utils/git.ts       (query helpers, porcelain parser, validation, paths)
  src/utils/env.ts       (environment-file filter)
  src/commands/list.ts   (status classifier)
  src/commands/clean.ts  (stale-worktree detection and removal)
  src/commands/remove.ts (single-worktree removal)
  src/commands/interactive.ts (terminal UI state machine)

External effects (git subprocesses, the terminal, the file system) are
modelled by explicit oracle records passed to the pure functions; a query
that can fail is an Except value.  JavaScript string primitives
(startsWith, endsWith, substring, split, includes, first-occurrence
replace, trim) are embedded as executable functions over String.data
(the underlying character list), which matches their JavaScript semantics
on the ASCII strings this program manipulates.
-/

/-! ## String primitives (JavaScript semantics, over character lists) -/

/-- JavaScript s.startsWith(pre). -/
def strStartsWith (s pre : String) : Bool := pre.data.isPrefixOf s.data

/-- JavaScript s.endsWith(post). -/
def strEndsWith (s post : String) : Bool := post.data.isSuffixOf s.data

/-- JavaScript s.substring(n) (drop the first n characters). -/
def strDrop (s : String) (n : Nat) : String := ⟨s.data.drop n⟩

/-- Characters treated as whitespace by the model of JavaScript trim. -/
def isWsChar (c : Char) : Bool := c = ' ' || c = '\t' || c = '\n' || c = '\r'

/-- JavaScript s.trim(). -/
def strTrim (s : String) : String :=
  ⟨((s.data.dropWhile isWsChar).reverse.dropWhile isWsChar).reverse⟩

/-- Does pat occur as a contiguous substring?  JavaScript s.includes(pat). -/
def listContainsSub (pat : List Char) : List Char → Bool
  | [] => pat.isPrefixOf []
  | c :: cs => pat.isPrefixOf (c :: cs) || listContainsSub pat cs

/-- JavaScript s.includes(pat). -/
def containsSubstr (s pat : String) : Bool := listContainsSub pat.data s.data

/-- Replace the first occurrence of pat (JavaScript String.replace with a
string pattern replaces only the first occurrence). -/
def replaceFirstList (pat repl : List Char) : List Char → List Char
  | [] => []
  | c :: cs =>
    if pat.isPrefixOf (c :: cs) then repl ++ (c :: cs).drop pat.length
    else c :: replaceFirstList pat repl cs

/-- JavaScript s.replace(pat, repl) with a string pattern. -/
def replaceFirst (s pat repl : String) : String :=
  ⟨replaceFirstList pat.data repl.data s.data⟩

/-- Replace every occurrence of a single character (JavaScript
s.replace(/c/g, d) for a one-character pattern). -/
def replaceAllChar (s : String) (c d : Char) : String :=
  ⟨s.data.map (fun x => if x = c then d else x)⟩

/-- Split on the newline character; JavaScript s.split(sep) for a
one-character separator. -/
def splitLinesAux (acc : List Char) : List Char → List (List Char)
  | [] => [acc.reverse]
  | c :: cs =>
    if c = '\n' then acc.reverse :: splitLinesAux [] cs
    else splitLinesAux (c :: acc) cs

/-- JavaScript stdout.split('\n'). -/
def splitLines (s : String) : List String :=
  (splitLinesAux [] s.data).map String.mk

/-- Strip trailing path separators (helper for the Node path functions). -/
def stripTrailingSlashes (l : List Char) : List Char :=
  (l.reverse.dropWhile (· = '/')).reverse

/-- Model of Node path.basename for ordinary POSIX paths. -/
def basename (s : String) : String :=
  let l := stripTrailingSlashes s.data
  ⟨(l.reverse.takeWhile (· ≠ '/')).reverse⟩

/-- Model of Node path.dirname for ordinary POSIX paths. -/
def dirname (s : String) : String :=
  let l := stripTrailingSlashes s.data
  let pre := stripTrailingSlashes (l.reverse.dropWhile (· ≠ '/')).reverse
  if pre = [] then "." else ⟨pre⟩

/-- Model of Node path.join for two ordinary segments. -/
def joinPath (a b : String) : String := a ++ "/" ++ b

/-! ## Data model: worktree records (interface WorktreeInfo, git.ts) -/

/-- One parsed worktree record.  branch and head are optional because the
parser in listWorktrees leaves them undefined when the porcelain stanza
has no such line (detached and bare worktrees). -/
structure WorktreeInfo where
  path : String
  branch : Option String
  head : Option String
  bare : Bool
  detached : Bool
deriving DecidableEq, Repr

/-! ## Git query oracles (git.ts helpers)

A GitEnv fixes the outcome of every git subprocess the query helpers
run.  An Except.error models a subprocess that exits non-zero (the
try/catch in the TypeScript helpers). -/

structure GitEnv where
  /-- stdout of git branch -r, or failure. -/
  branchROut : Except Unit String
  /-- stdout of git symbolic-ref refs/remotes/origin/HEAD, or failure. -/
  symbolicRefOut : Except Unit String
  /-- whether git rev-parse --verify name succeeds (branchExists). -/
  localBranchVerify : String → Bool
  /-- stdout of git branch --merged defaultBranch, or failure. -/
  branchMergedOut : String → Except Unit String

/-- git.ts branchExists: rev-parse --verify, false on failure. -/
def branchExists (env : GitEnv) (branchName : String) : Bool :=
  env.localBranchVerify branchName

/-- git.ts remoteBranchExists: scans git branch -r output; any subprocess
failure is caught and yields false. -/
def remoteBranchExists (env : GitEnv) (branchName : String) : Bool :=
  match env.branchROut with
  | .error _ => false
  | .ok stdout =>
    let remoteBranches := (splitLines stdout).map strTrim
    remoteBranches.any (fun b =>
      b = "origin/" ++ branchName || strEndsWith b ("/" ++ branchName))

/-- git.ts getDefaultBranch: symbolic-ref of origin/HEAD, falling back to
a local main or master branch; never fails. -/
def getDefaultBranch (env : GitEnv) : String :=
  match env.symbolicRefOut with
  | .ok stdout => replaceFirst (strTrim stdout) "refs/remotes/origin/" ""
  | .error _ =>
    if branchExists env "main" then "main"
    else if branchExists env "master" then "master"
    else "main"

/-- git.ts isBranchMerged: scans git branch --merged defaultBranch output;
any subprocess failure is caught and yields false. -/
def isBranchMerged (env : GitEnv) (branchName : String) : Bool :=
  match env.branchMergedOut (getDefaultBranch env) with
  | .error _ => false
  | .ok stdout =>
    let mergedBranches :=
      (splitLines stdout).map (fun b => replaceFirst (strTrim b) "* " "")
    mergedBranches.contains branchName

/-! ## Status classifier (list.ts getWorktreeStatus) -/

/-- The display statuses produced by getWorktreeStatus (chalk colouring
stripped). -/
inductive WorktreeStatus
  | main | detached | unknown | merged | localOnly | active
deriving DecidableEq, Repr

/-- list.ts getWorktreeStatus(branch, detached, isMain).  A JavaScript
falsy branch (undefined or the empty string) yields unknown. -/
def getWorktreeStatus (env : GitEnv) (branch : Option String)
    (detached : Bool) (isMain : Bool) : WorktreeStatus :=
  if isMain then .main
  else if detached then .detached
  else match branch with
  | none => .unknown
  | some b =>
    if b = "" then .unknown
    else if isBranchMerged env b then .merged
    else if !(remoteBranchExists env b) then .localOnly
    else .active

/-! ## Porcelain parser (git.ts listWorktrees)

listWorktrees splits the porcelain stdout of git worktree list into
lines and folds them into records.  The running partial record is a
PartialWt; in the TypeScript source it is a Partial of WorktreeInfo whose
path is pushed only when truthy, so an unset path and an empty path are
modelled alike by the empty string. -/

structure PartialWt where
  path : String
  branch : Option String
  head : Option String
  bare : Bool
  detached : Bool
deriving DecidableEq, Repr

/-- The initial partial record (the TypeScript empty object). -/
def emptyWt : PartialWt := ⟨"", none, none, false, false⟩

/-- The partial record started by a worktree line. -/
def freshWt (p : String) : PartialWt := ⟨p, none, none, false, false⟩

/-- Completing a partial record (the push of current as WorktreeInfo). -/
def toInfo (c : PartialWt) : WorktreeInfo :=
  ⟨c.path, c.branch, c.head, c.bare, c.detached⟩

/-- Push the running record if its path is truthy. -/
def pushCurrent (acc : List WorktreeInfo) (c : PartialWt) : List WorktreeInfo :=
  if c.path = "" then acc else acc ++ [toInfo c]

/-- The effect of one non-worktree line on the running record (the
HEAD/branch/bare/detached cases of the loop in listWorktrees). -/
def stepNonWt (c : PartialWt) (l : String) : PartialWt :=
  if strStartsWith l "HEAD " then { c with head := some (strDrop l 5) }
  else if strStartsWith l "branch " then
    { c with branch := some (replaceFirst (strDrop l 7) "refs/heads/" "") }
  else if l = "bare" then { c with bare := true }
  else if l = "detached" then { c with detached := true }
  else c

/-- The line loop of listWorktrees. -/
def parseLines (acc : List WorktreeInfo) (current : PartialWt) :
    List String → List WorktreeInfo
  | [] => pushCurrent acc current
  | l :: ls =>
    if strStartsWith l "worktree " then
      parseLines (pushCurrent acc current) (freshWt (strDrop l 9)) ls
    else parseLines acc (stepNonWt current l) ls

/-- git.ts listWorktrees, as a function of the porcelain stdout. -/
def listWorktrees (stdout : String) : List WorktreeInfo :=
  parseLines [] emptyWt (splitLines stdout)

/-! ## Declarative parser specification (for the refinement claim)

Modelled from the claim's words, to be compared with listWorktrees: the
text decomposes into stanzas, one per worktree line; a stanza's record
takes the path from the worktree line, the head and branch from the HEAD
and branch lines of the stanza body (a leading refs/heads/ removed from
the branch), and the flags from the presence of bare and detached lines;
only stanzas with a non-empty path remainder produce records. -/

/-- The value of the last body line starting with pre (n = pre.length). -/
def lastValue (pre : String) (n : Nat) : List String → Option String
  | [] => none
  | l :: ls =>
    match lastValue pre n ls with
    | some v => some v
    | none => if strStartsWith l pre then some (strDrop l n) else none

/-- Remove a leading refs/heads/ prefix. -/
def stripRefsHeads (s : String) : String :=
  if strStartsWith s "refs/heads/" then strDrop s 11 else s

/-- The record described by one stanza (path remainder and body lines). -/
def recordOfStanza (p : String) (body : List String) : WorktreeInfo :=
  { path := p
  , branch := (lastValue "branch " 7 body).map stripRefsHeads
  , head := lastValue "HEAD " 5 body
  , bare := body.contains "bare"
  , detached := body.contains "detached" }

/-- Stanza decomposition, after the first worktree line has been seen:
p is the current stanza's path remainder and body its lines so far. -/
def stanzasAux (p : String) (body : List String) :
    List String → List (String × List String)
  | [] => [(p, body)]
  | l :: ls =>
    if strStartsWith l "worktree " then
      (p, body) :: stanzasAux (strDrop l 9) [] ls
    else stanzasAux p (body ++ [l]) ls

/-- Stanza decomposition of the whole line list (lines before the first
worktree line belong to no stanza). -/
def stanzas : List String → List (String × List String)
  | [] => []
  | l :: ls =>
    if strStartsWith l "worktree " then stanzasAux (strDrop l 9) [] ls
    else stanzas ls

/-- A stanza's record, skipping empty path remainders. -/
def stanzaRecord (pb : String × List String) : Option WorktreeInfo :=
  if pb.1 = "" then none else some (recordOfStanza pb.1 pb.2)

/-- The parser specification assembled from the claim's words. -/
def listWorktreesSpec (stdout : String) : List WorktreeInfo :=
  (stanzas (splitLines stdout)).filterMap stanzaRecord

/-! ## Branch-name validation and worktree paths (git.ts) -/

/-- git.ts validateBranchName; an error value is the thrown Error. -/
def validateBranchName (branchName : String) : Except String Unit :=
  if branchName = "" || strTrim branchName = "" then
    .error "Branch name cannot be empty"
  else if strStartsWith branchName "-" then
    .error "Branch name cannot start with -"
  else if containsSubstr branchName ".." then
    .error "Branch name cannot contain .."
  else if branchName.length > 250 then
    .error "Branch name too long (max 250 characters)"
  else .ok ()

/-- git.ts getWorktreePath: sibling directory named repoName-safeBranch;
validation errors propagate as thrown errors. -/
def getWorktreePath (mainRepoPath branchName : String) : Except String String :=
  match validateBranchName branchName with
  | .error e => .error e
  | .ok _ =>
    let repoName := basename mainRepoPath
    let safeBranchName := replaceAllChar branchName '/' '-'
    .ok (joinPath (dirname mainRepoPath) (repoName ++ "-" ++ safeBranchName))

/-- git.ts createWorktree: validates, then issues exactly one git
worktree add invocation, whose argument list is returned. -/
def createWorktree (env : GitEnv) (worktreePath branchName : String)
    (startPoint : Option String) : Except String (List (List String)) :=
  match validateBranchName branchName with
  | .error e => .error e
  | .ok _ =>
    if branchExists env branchName then
      .ok [["worktree", "add", "--", worktreePath, branchName]]
    else match startPoint with
    | some sp => .ok [["worktree", "add", "-b", branchName, "--", worktreePath, sp]]
    | none => .ok [["worktree", "add", "-b", branchName, "--", worktreePath]]

/-- git.ts findWorktree: first record matching the identifier by branch,
full path, basename, or path suffix. -/
def findWorktree (worktrees : List WorktreeInfo) (identifier : String) :
    Option WorktreeInfo :=
  worktrees.find? (fun wt =>
    wt.branch = some identifier || wt.path = identifier ||
    basename wt.path = identifier || strEndsWith wt.path identifier)

/-! ## Environment-file filter (env.ts) -/

/-- The filter predicate inside env.ts findEnvFiles. -/
def envFileFilter (file : String) : Bool :=
  if !(file = ".env") && !(strStartsWith file ".env.") then false
  else if strEndsWith file ".example" || strEndsWith file ".sample"
      || strEndsWith file ".template" then false
  else true

/-- env.ts findEnvFiles: the glob .env* (filenames starting with .env)
over the directory listing, then the filter. -/
def findEnvFiles (dirFiles : List String) : List String :=
  (dirFiles.filter (fun f => strStartsWith f ".env")).filter envFileFilter

/-- env.ts copyEnvFiles: attempts to copy every candidate, returning the
successfully copied ones (a per-file copy failure is caught and logged). -/
def copyEnvFiles (dirFiles : List String) (copyOk : String → Bool) :
    List String :=
  (findEnvFiles dirFiles).filter copyOk

/-! ## Removal commands (remove.ts, clean.ts, interactive.ts)

Each command is modelled as a pure decision function returning its
outcome together with the trace of git worktree remove invocations it
performs: a trace entry (p, f) is a call removeWorktree(p, force := f).
The removal oracle removeOk p f tells whether that call succeeds. -/

/-- Outcomes of remove.ts removeCommand (the not-a-repository fatal exit
precedes everything modelled here). -/
inductive RemoveOutcome
  | notFound | mainRejected | cancelled | removed | removedForced | failed
deriving DecidableEq, Repr

/-- remove.ts removeCommand(identifier, options): find the worktree,
refuse the main worktree, confirm unless the force flag is set, remove,
and on failure retry once with force only when the force flag is set. -/
def removeCommand (worktrees : List WorktreeInfo) (mainRepoPath identifier : String)
    (force confirmAnswer : Bool) (removeOk : String → Bool → Bool) :
    RemoveOutcome × List (String × Bool) :=
  match findWorktree worktrees identifier with
  | none => (.notFound, [])
  | some worktree =>
    if worktree.path = mainRepoPath then (.mainRejected, [])
    else if !force && !confirmAnswer then (.cancelled, [])
    else if removeOk worktree.path false then
      (.removed, [(worktree.path, false)])
    else if force then
      if removeOk worktree.path true then
        (.removedForced, [(worktree.path, false), (worktree.path, true)])
      else (.failed, [(worktree.path, false), (worktree.path, true)])
    else (.failed, [(worktree.path, false)])

/-- The two stale reasons of clean.ts. -/
inductive StaleReason
  | merged | localOnly
deriving DecidableEq, Repr

/-- clean.ts StaleWorktree: a record plus the reason it is stale. -/
structure StaleWorktree where
  info : WorktreeInfo
  reason : StaleReason
deriving DecidableEq, Repr

/-- The per-record stale decision of the loop in clean.ts cleanCommand:
skip the main, detached, bare and branchless (JavaScript-falsy branch)
records; merged branches are stale before the remote-existence check. -/
def staleReason (env : GitEnv) (mainRepoPath : String) (wt : WorktreeInfo) :
    Option StaleReason :=
  if wt.path = mainRepoPath then none
  else if wt.detached || wt.bare then none
  else match wt.branch with
  | none => none
  | some b =>
    if b = "" then none
    else if isBranchMerged env b then some .merged
    else if !(remoteBranchExists env b) then some .localOnly
    else none

/-- clean.ts: the staleWorktrees list accumulated by the scan loop. -/
def findStaleWorktrees (env : GitEnv) (worktrees : List WorktreeInfo)
    (mainRepoPath : String) : List StaleWorktree :=
  worktrees.filterMap (fun wt => (staleReason env mainRepoPath wt).map (⟨wt, ·⟩))

/-- clean.ts removal of one selected worktree: plain removal, then one
forced retry; returns success and the trace of removal calls. -/
def cleanRemoveOne (removeOk : String → Bool → Bool) (wt : StaleWorktree) :
    Bool × List (String × Bool) :=
  if removeOk wt.info.path false then (true, [(wt.info.path, false)])
  else if removeOk wt.info.path true then
    (true, [(wt.info.path, false), (wt.info.path, true)])
  else (false, [(wt.info.path, false), (wt.info.path, true)])

/-- Outcomes of clean.ts cleanCommand; done carries the removed and
failed counters printed at the end. -/
inductive CleanOutcome
  | noStale | noneSelected | cancelled | done (removed failed : Nat)
deriving DecidableEq, Repr

/-- clean.ts cleanCommand: scan for stale worktrees, let the user select
a subset (selectPred), confirm, then remove each selected worktree.  The
initial prune of stale references is an external effect with no bearing
on the modelled decisions. -/
def cleanCommand (env : GitEnv) (worktrees : List WorktreeInfo)
    (mainRepoPath : String) (selectPred : StaleWorktree → Bool)
    (confirmAnswer : Bool) (removeOk : String → Bool → Bool) :
    CleanOutcome × List (String × Bool) :=
  let staleWorktrees := findStaleWorktrees env worktrees mainRepoPath
  if staleWorktrees.isEmpty then (.noStale, [])
  else
    let selected := staleWorktrees.filter selectPred
    if selected.isEmpty then (.noneSelected, [])
    else if !confirmAnswer then (.cancelled, [])
    else
      let results := selected.map (cleanRemoveOne removeOk)
      (.done (results.filter (·.1)).length (results.filter (fun r => !r.1)).length,
       (results.map (·.2)).flatten)

/-- Outcomes of the interactive delete action. -/
inductive DeleteOutcome
  | noSelection | mainRejected | cancelled | deleted | deletedForced | deleteFailed
deriving DecidableEq, Repr

/-- interactive.ts deleteSelected: refuse the main worktree, ask for
confirmation, remove, and on failure retry once with force. -/
def deleteSelected (worktrees : List WorktreeInfo) (selectedIndex : Nat)
    (mainRepoPath : String) (confirmAnswer : Bool)
    (removeOk : String → Bool → Bool) : DeleteOutcome × List (String × Bool) :=
  match worktrees[selectedIndex]? with
  | none => (.noSelection, [])
  | some wt =>
    if wt.path = mainRepoPath then (.mainRejected, [])
    else if !confirmAnswer then (.cancelled, [])
    else if removeOk wt.path false then (.deleted, [(wt.path, false)])
    else if removeOk wt.path true then
      (.deletedForced, [(wt.path, false), (wt.path, true)])
    else (.deleteFailed, [(wt.path, false), (wt.path, true)])

/-! ## Interactive UI state machine (interactive.ts)

The blessed-based TUI is single-threaded and event-driven; each handler
runs to completion (awaiting its subprocesses) before the next event.
It is modelled as a step function over an explicit state: the status
field of each non-terminal state is the content of the status bar.  An
event bundles the key or form submission with nothing else; the outcomes
of the external processes the handler awaits come from the UIEnv. -/

/-- The two launchable assistants (type AITool). -/
inductive AITool
  | claude | codex
deriving DecidableEq, Repr

/-- Display name used in status messages. -/
def toolName : AITool → String
  | .claude => "claude"
  | .codex => "codex"

/-- The UI states: browsing the list, the branch-name form, the AI-tool
choice form (creation wizard), and the delete confirmation dialog.
Exited is the terminal state (the process has exited). -/
inductive UIState
  | browsing (status : String)
  | awaitingBranchName (status : String)
  | awaitingToolChoice (status : String) (branchName : String)
  | confirmingDelete (status : String) (wt : WorktreeInfo)
  | exited
deriving DecidableEq, Repr

/-- The discrete events driving the machine. -/
inductive UIEvent
  | keyNew | keyDelete | keyPush | keyQuit | keyEnter
  | keyLaunch (tool : AITool)
  | submitBranch (value : String)
  | cancelInput
  | chooseTool (tool : Option AITool)
  | escapeToolChoice
  | answerDelete (yes : Bool)
deriving DecidableEq, Repr

/-- The environment an interactive session reads: the loaded worktree
list and selection, plus the outcomes of the external processes a
handler awaits. -/
structure UIEnv where
  worktrees : List WorktreeInfo
  selectedIndex : Nat
  mainRepoPath : String
  /-- whether createNewWorktree's worktree creation and env copy succeed. -/
  createOk : Bool
  createErrMsg : String
  /-- whether pushBranch succeeds. -/
  pushOk : Bool
  pushErrMsg : String
  removeErrMsg : String
  toolAvailable : AITool → Bool
  removeOk : String → Bool → Bool

/-- One step of the interactive machine.  Each case is the handler of
the corresponding key or form event in interactive.ts; events a state
has no handler for leave it unchanged. -/
def uiStep (env : UIEnv) (s : UIState) (e : UIEvent) : UIState :=
  match s, e with
  | .exited, _ => .exited
  | .browsing _, .keyQuit => .exited
  | .browsing st, .keyNew => .awaitingBranchName st
  | .browsing st, .keyDelete =>
    match env.worktrees[env.selectedIndex]? with
    | none => .browsing st
    | some wt =>
      if wt.path = env.mainRepoPath then .browsing "Cannot delete main worktree"
      else .confirmingDelete st wt
  | .browsing _, .keyPush =>
    match env.worktrees[env.selectedIndex]? with
    | none => .browsing "No branch to push"
    | some wt =>
      match wt.branch with
      | none => .browsing "No branch to push"
      | some b =>
        if b = "" then .browsing "No branch to push"
        else if env.pushOk then .browsing ("Pushed " ++ b ++ " to origin")
        else .browsing ("Error: " ++ env.pushErrMsg)
  | .browsing st, .keyLaunch tool =>
    match env.worktrees[env.selectedIndex]? with
    | none => .browsing st
    | some _ =>
      if env.toolAvailable tool then .exited
      else .browsing (toolName tool ++ " is not installed")
  | .browsing st, .keyEnter =>
    match env.worktrees[env.selectedIndex]? with
    | none => .browsing st
    | some _ => .exited
  | .browsing st, _ => .browsing st
  | .awaitingBranchName st, .submitBranch v =>
    let value := strTrim v
    if value = "" then .browsing st
    else
      match validateBranchName value with
      | .ok _ => .awaitingToolChoice st value
      | .error m => .awaitingBranchName ("Error: " ++ m)
  | .awaitingBranchName st, .cancelInput => .browsing st
  | .awaitingBranchName st, _ => .awaitingBranchName st
  | .awaitingToolChoice st _, .escapeToolChoice => .browsing st
  | .awaitingToolChoice _ b, .chooseTool t =>
    if !env.createOk then .browsing ("Error: " ++ env.createErrMsg)
    else
      match t with
      | none => .browsing ("Created " ++ b)
      | some tool =>
        if env.toolAvailable tool then .exited
        else .browsing (toolName tool ++ " is not installed")
  | .awaitingToolChoice st b, _ => .awaitingToolChoice st b
  | .confirmingDelete st wt, .answerDelete yes =>
    if !yes then .browsing st
    else if env.removeOk wt.path false then
      .browsing ("Deleted " ++ basename wt.path)
    else if env.removeOk wt.path true then
      .browsing ("Deleted " ++ basename wt.path ++ " (forced)")
    else .browsing ("Error: " ++ env.removeErrMsg)
  | .confirmingDelete st wt, _ => .confirmingDelete st wt

/-! ## Auxiliary definitions for the proofs -/

/-- The running record as a function of the stanza body processed so
far (a reformulation of the parser loop used by the refinement proof). -/
def applyBody (c : PartialWt) (body : List String) : PartialWt :=
  body.foldl stepNonWt c

/-- Keep the later of two optional values (later porcelain lines
overwrite earlier ones). -/
def optOr (a b : Option String) : Option String :=
  match a with
  | some v => some v
  | none => b

/-- Well-formedness of porcelain output: the value of every branch line
is a full ref starting with refs/heads/ (git always prints full refs in
the porcelain listing). -/
def GoodLines (ls : List String) : Prop :=
  ∀ l ∈ ls, strStartsWith l "branch " = true →
    strStartsWith (strDrop l 7) "refs/heads/" = true

/-- The admissible removal-call traces for a single worktree: nothing,
one plain call, or one plain call followed by one forced call. -/
def fallbackShapes (p : String) : List (List (String × Bool)) :=
  [[], [(p, false)], [(p, false), (p, true)]]

/-- Is a UI state the browsing list or the terminal state? -/
def browsingOrExited : UIState → Bool
  | .browsing _ => true
  | .exited => true
  | _ => false

/-! ## Concrete oracles used by witnesses and counterexamples -/

/-- A git environment in which every query subprocess fails. -/
def envAllFail : GitEnv :=
  ⟨.error (), .error (), fun _ => false, fun _ => .error ()⟩

/-- A git environment with no remote in which "feature" is merged into
the default branch. -/
def envMerged : GitEnv :=
  ⟨.error (), .error (), fun _ => false, fun _ => .ok "* main\n  feature"⟩

/-- A git environment in which "feature" exists on the remote and is not
merged. -/
def envActive : GitEnv :=
  ⟨.ok "  origin/feature", .error (), fun _ => false, fun _ => .ok "* main"⟩

/-- The primary worktree record used by witnesses. -/
def mainWt : WorktreeInfo := ⟨"/repo", some "main", some "abc1", false, false⟩

/-- A feature worktree record used by witnesses. -/
def featWt : WorktreeInfo := ⟨"/repo-feature", some "feature", some "abc2", false, false⟩

/-- A porcelain listing exercised by the parser witness. -/
def porcelainEx : String :=
  "worktree /repo\nHEAD 1234abcd\nbranch refs/heads/main\n\nworktree /repo-feature\nHEAD 5678beef\ndetached\n\nworktree /repo-bare\nbare\n"

/-- An interactive environment whose external processes all fail. -/
def uiEnvFail : UIEnv :=
  ⟨[mainWt, featWt], 1, "/repo", false, "create boom", false, "push boom",
   "remove boom", fun _ => false, fun _ _ => false⟩

/-! ## String lemmas -/

theorem isPrefixOf_iff_append (p : List Char) : ∀ l : List Char,
    p.isPrefixOf l = true ↔ ∃ t, l = p ++ t := by
  induction p with
  | nil => intro l; simp [List.isPrefixOf]
  | cons a as ih =>
    intro l
    cases l with
    | nil => simp [List.isPrefixOf]
    | cons b bs =>
      simp only [List.isPrefixOf, Bool.and_eq_true, beq_iff_eq, ih, List.cons_append,
        List.cons.injEq]
      constructor
      · rintro ⟨rfl, t, rfl⟩; exact ⟨t, rfl, rfl⟩
      · rintro ⟨t, rfl, rfl⟩; exact ⟨rfl, t, rfl⟩

theorem drop_append_self (p t : List Char) : (p ++ t).drop p.length = t := by
  induction p with
  | nil => simp
  | cons a as ih => simp [ih]

theorem replaceFirstList_self_prefix (pat t : List Char) (h : pat ≠ []) :
    replaceFirstList pat [] (pat ++ t) = t := by
  cases pat with
  | nil => exact absurd rfl h
  | cons c cs =>
    show replaceFirstList (c :: cs) [] (c :: (cs ++ t)) = t
    rw [replaceFirstList, if_pos]
    · simp [drop_append_self cs t]
    · exact (isPrefixOf_iff_append _ _).mpr ⟨t, by simp⟩

/-- On a string that starts with refs/heads/, the first-occurrence
replacement by the empty string is exactly the removal of that prefix. -/
theorem replaceFirst_refsHeads (s : String)
    (h : strStartsWith s "refs/heads/" = true) :
    replaceFirst s "refs/heads/" "" = stripRefsHeads s := by
  unfold strStartsWith at h
  obtain ⟨t, ht⟩ := (isPrefixOf_iff_append _ _).mp h
  unfold replaceFirst stripRefsHeads strStartsWith strDrop
  rw [if_pos ((isPrefixOf_iff_append _ _).mpr ⟨t, ht⟩), ht,
    show ("" : String).data = [] from rfl,
    replaceFirstList_self_prefix _ _ (by decide)]
  have h2 := drop_append_self "refs/heads/".data t
  rw [show ("refs/heads/".data).length = 11 from rfl] at h2
  rw [h2]

/-- A line starting with "branch " does not start with "HEAD ". -/
theorem branch_line_not_head (l : String)
    (h : strStartsWith l "branch " = true) : strStartsWith l "HEAD " = false := by
  unfold strStartsWith at h ⊢
  obtain ⟨t, ht⟩ := (isPrefixOf_iff_append _ _).mp h
  rw [ht, show "branch ".data = 'b' :: "ranch ".data from rfl,
    show "HEAD ".data = 'H' :: "EAD ".data from rfl]
  simp [List.isPrefixOf, show (('H' == 'b') : Bool) = false from by decide]

/-- A filename starting with ".env." starts with ".env". -/
theorem startsWith_env_of_envDot (f : String)
    (h : strStartsWith f ".env." = true) : strStartsWith f ".env" = true := by
  unfold strStartsWith at h ⊢
  obtain ⟨t, ht⟩ := (isPrefixOf_iff_append _ _).mp h
  rw [ht, show ".env.".data = ".env".data ++ ['.'] from rfl, List.append_assoc]
  exact (isPrefixOf_iff_append _ _).mpr ⟨'.' :: t, rfl⟩

/-! ## C1: query failures and the safe default -/

/-- C1 (counterexample): when both underlying queries fail (the claim's
own example), the classifier returns local-only, not the claimed safe
default active. -/
theorem getWorktreeStatus_queryFailure_cex :
    getWorktreeStatus envAllFail (some "feature") false false = .localOnly ∧
    getWorktreeStatus envAllFail (some "feature") false false ≠ .active := by
  constructor
  · rfl
  · decide

/-- C1 (amended): errors of the underlying queries are caught inside the
query helpers and degrade to the answer false instead of failing the
listing; hence a non-primary, non-detached record whose branch name is
non-empty is classified local-only when both queries fail (it is
classified active only when the remote-existence query succeeds with a
positive answer while the merge answer is negative). -/
theorem getWorktreeStatus_queryFailure_degrades (env : GitEnv) (b : String)
    (hr : env.branchROut = .error ())
    (hm : ∀ d, env.branchMergedOut d = .error ())
    (hb : b ≠ "") :
    remoteBranchExists env b = false ∧
    isBranchMerged env b = false ∧
    getWorktreeStatus env (some b) false false = .localOnly := by
  have h1 : remoteBranchExists env b = false := by
    unfold remoteBranchExists; rw [hr]
  have h2 : isBranchMerged env b = false := by
    unfold isBranchMerged; rw [hm]
  refine ⟨h1, h2, ?_⟩
  unfold getWorktreeStatus
  simp [hb, h1, h2]

/-- Witness for the amended C1 at a concrete failing environment. -/
theorem getWorktreeStatus_queryFailure_degrades_witness :
    remoteBranchExists envAllFail "feature" = false ∧
    isBranchMerged envAllFail "feature" = false ∧
    getWorktreeStatus envAllFail (some "feature") false false = .localOnly :=
  getWorktreeStatus_queryFailure_degrades envAllFail "feature" rfl (fun _ => rfl)
    (by decide)

/-! ## C2: classifier precedence -/

/-- C2: for non-primary records the classifier checks the detached flag
first, then the merge query (merged wins regardless of the
remote-existence answer), then remote existence (absent means
local-only), and otherwise yields active; the clean command's stale scan
applies the same precedence, classifying merged branches as stale before
consulting the remote. -/
theorem getWorktreeStatus_precedence (env : GitEnv) (b : String) (hb : b ≠ "") :
    (∀ br, getWorktreeStatus env br true false = .detached) ∧
    (isBranchMerged env b = true →
      getWorktreeStatus env (some b) false false = .merged) ∧
    (isBranchMerged env b = false → remoteBranchExists env b = false →
      getWorktreeStatus env (some b) false false = .localOnly) ∧
    (isBranchMerged env b = false → remoteBranchExists env b = true →
      getWorktreeStatus env (some b) false false = .active) ∧
    (∀ (wt : WorktreeInfo) (m : String), wt.path ≠ m → wt.detached = false →
      wt.bare = false → wt.branch = some b → isBranchMerged env b = true →
      staleReason env m wt = some .merged) := by
  refine ⟨fun br => rfl, ?_, ?_, ?_, ?_⟩
  · intro h; unfold getWorktreeStatus; simp [hb, h]
  · intro h1 h2; unfold getWorktreeStatus; simp [hb, h1, h2]
  · intro h1 h2; unfold getWorktreeStatus; simp [hb, h1, h2]
  · intro wt m hp hd hba hbr h
    unfold staleReason
    rw [hbr]
    simp [hp, hd, hba, hb, h]

/-- Witness for C2 exercising every branch of the precedence at concrete
environments. -/
theorem getWorktreeStatus_precedence_witness :
    getWorktreeStatus envMerged (some "feature") true false = .detached ∧
    getWorktreeStatus envMerged (some "feature") false false = .merged ∧
    getWorktreeStatus envAllFail (some "feature") false false = .localOnly ∧
    getWorktreeStatus envActive (some "feature") false false = .active ∧
    staleReason envMerged "/repo" featWt = some .merged := by
  refine ⟨(getWorktreeStatus_precedence envMerged "feature" (by decide)).1 _,
    (getWorktreeStatus_precedence envMerged "feature" (by decide)).2.1 (by decide),
    (getWorktreeStatus_precedence envAllFail "feature" (by decide)).2.2.1
      (by decide) (by decide),
    (getWorktreeStatus_precedence envActive "feature" (by decide)).2.2.2.1
      (by decide) (by decide),
    (getWorktreeStatus_precedence envMerged "feature" (by decide)).2.2.2.2 featWt
      "/repo" (by decide) rfl rfl rfl (by decide)⟩

/-! ## C3: records lacking a branch name -/

/-- C3 (counterexample): a non-primary record lacking a branch name but
not flagged detached is classified unknown, not detached. -/
theorem getWorktreeStatus_noBranch_cex :
    getWorktreeStatus envAllFail none false false = .unknown ∧
    getWorktreeStatus envAllFail none false false ≠ .detached := by
  constructor
  · rfl
  · decide

/-- C3 (amended): a non-primary record lacking a branch name is
classified detached exactly when its detached flag is set; when the flag
is unset such a record is classified unknown. -/
theorem getWorktreeStatus_noBranch (env : GitEnv) :
    getWorktreeStatus env none true false = .detached ∧
    getWorktreeStatus env none false false = .unknown :=
  ⟨rfl, rfl⟩

/-! ## C4: the primary worktree is never removed -/

/-- A stale worktree never carries the main repository path. -/
theorem findStale_not_main (env : GitEnv) (wl : List WorktreeInfo) (m : String)
    (st : StaleWorktree) (h : st ∈ findStaleWorktrees env wl m) :
    st.info.path ≠ m := by
  unfold findStaleWorktrees at h
  rw [List.mem_filterMap] at h
  obtain ⟨wt, _, hmap⟩ := h
  rw [Option.map_eq_some'] at hmap
  obtain ⟨r, hr, rfl⟩ := hmap
  intro hpath
  unfold staleReason at hr
  rw [if_pos hpath] at hr
  exact Option.noConfusion hr

/-- Every removal call of the clean step targets the selected stale
worktree's path. -/
theorem cleanRemoveOne_path (ro : String → Bool → Bool) (st : StaleWorktree)
    (c : String × Bool) (h : c ∈ (cleanRemoveOne ro st).2) :
    c.1 = st.info.path := by
  unfold cleanRemoveOne at h
  split_ifs at h <;> simp at h <;>
    first
      | (rw [h])
      | (rcases h with h | h <;> rw [h])

/-- C4: on every removal path (the remove subcommand, the interactive
delete action, and the clean subcommand) a worktree whose path equals
the main repository path is rejected or skipped, and no removal call is
issued for it. -/
theorem primary_removal_rejected :
    (∀ (wl : List WorktreeInfo) (m iden : String) (f ca : Bool)
      (ro : String → Bool → Bool) (wt : WorktreeInfo),
      findWorktree wl iden = some wt → wt.path = m →
      removeCommand wl m iden f ca ro = (.mainRejected, [])) ∧
    (∀ (wl : List WorktreeInfo) (i : Nat) (m : String) (ca : Bool)
      (ro : String → Bool → Bool) (wt : WorktreeInfo),
      wl[i]? = some wt → wt.path = m →
      deleteSelected wl i m ca ro = (.mainRejected, [])) ∧
    (∀ (env : GitEnv) (wl : List WorktreeInfo) (m : String)
      (sel : StaleWorktree → Bool) (ca : Bool) (ro : String → Bool → Bool)
      (c : String × Bool),
      c ∈ (cleanCommand env wl m sel ca ro).2 → c.1 ≠ m) := by
  refine ⟨?_, ?_, ?_⟩
  · intro wl m iden f ca ro wt hfind hpath
    unfold removeCommand
    rw [hfind]
    simp [hpath]
  · intro wl i m ca ro wt hget hpath
    unfold deleteSelected
    rw [hget]
    simp [hpath]
  · intro env wl m sel ca ro c hc
    unfold cleanCommand at hc
    by_cases h1 : (findStaleWorktrees env wl m).isEmpty
    · rw [if_pos h1] at hc; simp at hc
    · rw [if_neg h1] at hc
      by_cases h2 : ((findStaleWorktrees env wl m).filter sel).isEmpty
      · rw [if_pos h2] at hc; simp at hc
      · rw [if_neg h2] at hc
        by_cases h3 : (!ca) = true
        · rw [if_pos h3] at hc; simp at hc
        · rw [if_neg h3] at hc
          simp only [List.mem_flatten, List.mem_map, List.mem_filter] at hc
          obtain ⟨seg, ⟨res, ⟨st, ⟨hst, hsel⟩, rfl⟩, rfl⟩, hcseg⟩ := hc
          rw [cleanRemoveOne_path ro st c hcseg]
          exact findStale_not_main env wl m st hst

/-- Witness for C4 at concrete repositories. -/
theorem primary_removal_rejected_witness :
    removeCommand [mainWt, featWt] "/repo" "/repo" false true (fun _ _ => true)
      = (.mainRejected, []) ∧
    deleteSelected [mainWt, featWt] 0 "/repo" true (fun _ _ => true)
      = (.mainRejected, []) ∧
    ("/repo-feature", false).1 ≠ "/repo" :=
  ⟨primary_removal_rejected.1 [mainWt, featWt] "/repo" "/repo" false true
      (fun _ _ => true) mainWt (by decide) rfl,
   primary_removal_rejected.2.1 [mainWt, featWt] 0 "/repo" true
      (fun _ _ => true) mainWt (by decide) rfl,
   primary_removal_rejected.2.2 envMerged [mainWt, featWt] "/repo"
      (fun _ => true) true (fun _ _ => true) ("/repo-feature", false) (by decide)⟩

/-! ## C5: validation rejects traversal and flag-like names -/

/-- C5: a branch name containing ".." or starting with "-" is rejected
by validateBranchName with a thrown error, and therefore neither
createWorktree (no git invocation is produced) nor getWorktreePath can
succeed on it. -/
theorem validateBranchName_rejects (s : String)
    (h : containsSubstr s ".." = true ∨ strStartsWith s "-" = true) :
    (∀ u, validateBranchName s ≠ .ok u) ∧
    (∀ m p, getWorktreePath m s ≠ .ok p) ∧
    (∀ (env : GitEnv) (wp : String) (sp : Option String) calls,
      createWorktree env wp s sp ≠ .ok calls) := by
  have hv : ∀ u, validateBranchName s ≠ .ok u := by
    intro u
    unfold validateBranchName
    split_ifs with h1 h2 h3 h4 <;> intro heq
    · exact Except.noConfusion heq
    · exact Except.noConfusion heq
    · exact Except.noConfusion heq
    · exact Except.noConfusion heq
    · rcases h with h | h
      · exact h3 h
      · exact h2 h
  have herr : ∃ e, validateBranchName s = .error e := by
    cases hval : validateBranchName s with
    | ok u => exact absurd hval (hv u)
    | error e => exact ⟨e, rfl⟩
  obtain ⟨e, he⟩ := herr
  refine ⟨hv, ?_, ?_⟩
  · intro m p
    unfold getWorktreePath
    rw [he]
    exact fun heq => Except.noConfusion heq
  · intro env wp sp calls
    unfold createWorktree
    rw [he]
    exact fun heq => Except.noConfusion heq

/-- Witness for C5 on a path-traversal name. -/
theorem validateBranchName_rejects_witness :
    validateBranchName "../escape" ≠ .ok () ∧
    getWorktreePath "/repo" "../escape" ≠ .ok "/x" ∧
    createWorktree envAllFail "/wp" "../escape" none ≠ .ok [] :=
  ⟨(validateBranchName_rejects "../escape" (Or.inl (by decide))).1 (),
   (validateBranchName_rejects "../escape" (Or.inl (by decide))).2.1 "/repo" "/x",
   (validateBranchName_rejects "../escape" (Or.inl (by decide))).2.2 envAllFail
     "/wp" none []⟩

/-! ## C6: parser refinement lemmas -/

theorem stepNonWt_path (c : PartialWt) (l : String) :
    (stepNonWt c l).path = c.path := by
  unfold stepNonWt; split_ifs <;> rfl

theorem stepNonWt_head_pos (c : PartialWt) (l : String)
    (h : strStartsWith l "HEAD " = true) :
    (stepNonWt c l).head = some (strDrop l 5) := by
  unfold stepNonWt; rw [if_pos h]

theorem stepNonWt_head_of_not (c : PartialWt) (l : String)
    (h : strStartsWith l "HEAD " = false) : (stepNonWt c l).head = c.head := by
  unfold stepNonWt
  split_ifs with h1 h2 h3 h4
  · exact absurd h1 (by simp [h])
  all_goals rfl

theorem stepNonWt_branch_pos (c : PartialWt) (l : String)
    (h2 : strStartsWith l "branch " = true) :
    (stepNonWt c l).branch = some (replaceFirst (strDrop l 7) "refs/heads/" "") := by
  have h1 := branch_line_not_head l h2
  unfold stepNonWt
  rw [if_neg (by simp [h1]), if_pos h2]

theorem stepNonWt_branch_of_not (c : PartialWt) (l : String)
    (h : strStartsWith l "branch " = false) : (stepNonWt c l).branch = c.branch := by
  unfold stepNonWt
  split_ifs with h1 h2 h3 h4
  · rfl
  · exact absurd h2 (by simp [h])
  all_goals rfl

theorem stepNonWt_bare (c : PartialWt) (l : String) :
    (stepNonWt c l).bare = (c.bare || ("bare" == l)) := by
  unfold stepNonWt
  split_ifs with h1 h2 h3 h4
  · have hne : "bare" ≠ l := fun he => by rw [← he] at h1; exact absurd h1 (by decide)
    simp [hne]
  · have hne : "bare" ≠ l := fun he => by rw [← he] at h2; exact absurd h2 (by decide)
    simp [hne]
  · simp [h3]
  · have hne : "bare" ≠ l := fun he => by rw [h4] at he; exact absurd he (by decide)
    simp [hne]
  · have hne : "bare" ≠ l := fun he => h3 he.symm
    simp [hne]

theorem stepNonWt_detached (c : PartialWt) (l : String) :
    (stepNonWt c l).detached = (c.detached || ("detached" == l)) := by
  unfold stepNonWt
  split_ifs with h1 h2 h3 h4
  · have hne : "detached" ≠ l := fun he => by rw [← he] at h1; exact absurd h1 (by decide)
    simp [hne]
  · have hne : "detached" ≠ l := fun he => by rw [← he] at h2; exact absurd h2 (by decide)
    simp [hne]
  · have hne : "detached" ≠ l := fun he => by rw [h3] at he; exact absurd he (by decide)
    simp [hne]
  · simp [h4]
  · have hne : "detached" ≠ l := fun he => h4 he.symm
    simp [hne]

theorem optOr_none (a : Option String) : optOr a none = a := by
  cases a <;> rfl

theorem freshWt_path (p : String) : (freshWt p).path = p := rfl

theorem applyBody_path (body : List String) : ∀ c : PartialWt,
    (applyBody c body).path = c.path := by
  induction body with
  | nil => intro c; rfl
  | cons l ls ih =>
    intro c
    show (applyBody (stepNonWt c l) ls).path = c.path
    rw [ih, stepNonWt_path]

theorem applyBody_head (body : List String) : ∀ c : PartialWt,
    (applyBody c body).head = optOr (lastValue "HEAD " 5 body) c.head := by
  induction body with
  | nil => intro c; rfl
  | cons l ls ih =>
    intro c
    show (applyBody (stepNonWt c l) ls).head
        = optOr (lastValue "HEAD " 5 (l :: ls)) c.head
    rw [ih]
    cases hlv : lastValue "HEAD " 5 ls with
    | some v => simp [lastValue, hlv, optOr]
    | none =>
      by_cases h1 : strStartsWith l "HEAD " = true
      · simp [lastValue, hlv, optOr, h1, stepNonWt_head_pos c l h1]
      · have hb : strStartsWith l "HEAD " = false := Bool.eq_false_iff.mpr h1
        simp [lastValue, hlv, optOr, hb, stepNonWt_head_of_not c l hb]

theorem applyBody_branch (body : List String) : ∀ c : PartialWt, GoodLines body →
    (applyBody c body).branch
      = optOr ((lastValue "branch " 7 body).map stripRefsHeads) c.branch := by
  induction body with
  | nil => intro c _; rfl
  | cons l ls ih =>
    intro c hg
    show (applyBody (stepNonWt c l) ls).branch = _
    rw [ih _ (fun x hx => hg x (List.mem_cons_of_mem _ hx))]
    cases hlv : lastValue "branch " 7 ls with
    | some v => simp [lastValue, hlv, optOr]
    | none =>
      by_cases h2 : strStartsWith l "branch " = true
      · have hgood := hg l (List.mem_cons_self _ _) h2
        simp [lastValue, hlv, optOr, h2, stepNonWt_branch_pos c l h2,
          replaceFirst_refsHeads _ hgood]
      · have hb : strStartsWith l "branch " = false := Bool.eq_false_iff.mpr h2
        simp [lastValue, hlv, optOr, hb, stepNonWt_branch_of_not c l hb]

theorem applyBody_bare (body : List String) : ∀ c : PartialWt,
    (applyBody c body).bare = (c.bare || body.contains "bare") := by
  induction body with
  | nil => intro c; simp [applyBody]
  | cons l ls ih =>
    intro c
    show (applyBody (stepNonWt c l) ls).bare = (c.bare || (l :: ls).contains "bare")
    rw [ih, stepNonWt_bare, List.contains_cons, Bool.or_assoc]

theorem applyBody_detached (body : List String) : ∀ c : PartialWt,
    (applyBody c body).detached = (c.detached || body.contains "detached") := by
  induction body with
  | nil => intro c; simp [applyBody]
  | cons l ls ih =>
    intro c
    show (applyBody (stepNonWt c l) ls).detached
        = (c.detached || (l :: ls).contains "detached")
    rw [ih, stepNonWt_detached, List.contains_cons, Bool.or_assoc]

theorem toInfo_applyBody (p : String) (body : List String) (hg : GoodLines body) :
    toInfo (applyBody (freshWt p) body) = recordOfStanza p body := by
  unfold toInfo recordOfStanza
  rw [applyBody_path, applyBody_branch body _ hg, applyBody_head, applyBody_bare,
    applyBody_detached]
  simp [freshWt, optOr_none]

theorem pushCurrent_eq (acc : List WorktreeInfo) (c : PartialWt) :
    pushCurrent acc c = acc ++ pushCurrent [] c := by
  unfold pushCurrent; split_ifs <;> simp

theorem parseLines_append (ls : List String) :
    ∀ (acc : List WorktreeInfo) (c : PartialWt),
    parseLines acc c ls = acc ++ parseLines [] c ls := by
  induction ls with
  | nil =>
    intro acc c
    show pushCurrent acc c = acc ++ pushCurrent [] c
    exact pushCurrent_eq acc c
  | cons l ls ih =>
    intro acc c
    by_cases h : strStartsWith l "worktree " = true
    · simp only [parseLines]
      rw [if_pos h, if_pos h, ih, ih (pushCurrent [] c), pushCurrent_eq,
        List.append_assoc]
    · simp only [parseLines]
      rw [if_neg h, if_neg h]
      exact ih acc _

theorem parseLines_stanzasAux (ls : List String) : ∀ (p : String) (body : List String),
    GoodLines ls → GoodLines body →
    parseLines [] (applyBody (freshWt p) body) ls
      = (stanzasAux p body ls).filterMap stanzaRecord := by
  induction ls with
  | nil =>
    intro p body _ hgb
    show pushCurrent [] (applyBody (freshWt p) body) = _
    unfold pushCurrent
    rw [applyBody_path]
    by_cases hp : p = ""
    · simp [stanzasAux, stanzaRecord, hp, freshWt_path]
    · simp [stanzasAux, stanzaRecord, hp, freshWt_path, toInfo_applyBody p body hgb]
  | cons l ls ih =>
    intro p body hgl hgb
    have hgls : GoodLines ls := fun x hx => hgl x (List.mem_cons_of_mem _ hx)
    by_cases h : strStartsWith l "worktree " = true
    · simp only [parseLines, stanzasAux]
      rw [if_pos h, if_pos h, parseLines_append,
        show freshWt (strDrop l 9) = applyBody (freshWt (strDrop l 9)) [] from rfl,
        ih (strDrop l 9) [] hgls (fun x hx => absurd hx (List.not_mem_nil x)),
        List.filterMap_cons]
      unfold pushCurrent
      rw [applyBody_path]
      by_cases hp : p = ""
      · simp [stanzaRecord, hp, freshWt_path]
      · simp [stanzaRecord, hp, freshWt_path, toInfo_applyBody p body hgb]
    · simp only [parseLines, stanzasAux]
      rw [if_neg h, if_neg h,
        show stepNonWt (applyBody (freshWt p) body) l
            = applyBody (freshWt p) (body ++ [l]) from by
          simp [applyBody, List.foldl_append]]
      refine ih p (body ++ [l]) hgls ?_
      intro x hx hbx
      rcases List.mem_append.mp hx with hx | hx
      · exact hgb x hx hbx
      · rcases List.mem_singleton.mp hx with rfl
        exact hgl _ (List.mem_cons_self _ _) hbx

theorem parseLines_stanzas (ls : List String) : ∀ c : PartialWt, c.path = "" →
    GoodLines ls → parseLines [] c ls = (stanzas ls).filterMap stanzaRecord := by
  induction ls with
  | nil =>
    intro c hc _
    show pushCurrent [] c = _
    simp [pushCurrent, hc, stanzas]
  | cons l ls ih =>
    intro c hc hg
    have hgls : GoodLines ls := fun x hx => hg x (List.mem_cons_of_mem _ hx)
    by_cases h : strStartsWith l "worktree " = true
    · simp only [parseLines, stanzas]
      rw [if_pos h, if_pos h,
        show pushCurrent [] c = [] from by simp [pushCurrent, hc],
        show freshWt (strDrop l 9) = applyBody (freshWt (strDrop l 9)) [] from rfl]
      exact parseLines_stanzasAux ls (strDrop l 9) [] hgls
        (fun x hx => absurd hx (List.not_mem_nil x))
    · simp only [parseLines, stanzas]
      rw [if_neg h, if_neg h]
      exact ih (stepNonWt c l) (by rw [stepNonWt_path]; exact hc) hgls

/-- C6: on well-formed porcelain output (every branch line carries a
full refs/heads/ ref, as git prints), listWorktrees produces exactly the
records described by the stanza reading of the text: one record per
worktree line whose remainder is non-empty, whose path is that
remainder, whose head and branch are the values of the stanza's HEAD and
branch lines (a leading refs/heads/ removed from the branch), and whose
bare and detached flags hold exactly when the lines bare and detached
appear in the stanza; the final stanza is included without a trailing
delimiter. -/
theorem listWorktrees_parses_stanzas (stdout : String)
    (hg : GoodLines (splitLines stdout)) :
    listWorktrees stdout = listWorktreesSpec stdout :=
  parseLines_stanzas (splitLines stdout) emptyWt rfl hg

/-- Witness for C6 on a three-stanza porcelain listing with a branch
stanza, a detached stanza, and a bare stanza. -/
theorem listWorktrees_parses_stanzas_witness :
    listWorktrees porcelainEx = listWorktreesSpec porcelainEx :=
  listWorktrees_parses_stanzas porcelainEx (by unfold GoodLines; decide)

/-! ## C7: at most one forced-removal fallback -/

/-- C7: on each removal path the trace of removal calls for one worktree
is empty, a single plain call, or a plain call followed by exactly one
forced call; when the forced attempt also fails, the failure is the
reported outcome and no further call is made for that worktree. -/
theorem single_forced_fallback (wl : List WorktreeInfo) (m iden : String)
    (f ca : Bool) (ro : String → Bool → Bool) (i : Nat)
    (fw wtd : WorktreeInfo) (st : StaleWorktree)
    (hf : findWorktree wl iden = some fw) (hd : wl[i]? = some wtd) :
    ((removeCommand wl m iden f ca ro).2 ∈ fallbackShapes fw.path) ∧
    (fw.path ≠ m → f = true → ro fw.path false = false → ro fw.path true = false →
      removeCommand wl m iden f ca ro
        = (.failed, [(fw.path, false), (fw.path, true)])) ∧
    ((deleteSelected wl i m ca ro).2 ∈ fallbackShapes wtd.path) ∧
    (wtd.path ≠ m → ca = true → ro wtd.path false = false → ro wtd.path true = false →
      deleteSelected wl i m ca ro
        = (.deleteFailed, [(wtd.path, false), (wtd.path, true)])) ∧
    ((cleanRemoveOne ro st).2 ∈ fallbackShapes st.info.path) ∧
    (ro st.info.path false = false → ro st.info.path true = false →
      cleanRemoveOne ro st = (false, [(st.info.path, false), (st.info.path, true)])) := by
  refine ⟨?_, ?_, ?_, ?_, ?_, ?_⟩
  · by_cases h1 : fw.path = m
    · simp [removeCommand, hf, h1, fallbackShapes]
    · by_cases h2 : (!f && !ca) = true
      · simp [removeCommand, hf, h1, h2, fallbackShapes]
      · cases h3 : ro fw.path false with
        | true => simp [removeCommand, hf, h1, h2, h3, fallbackShapes]
        | false =>
          cases h4 : f with
          | false =>
            cases hca : ca with
            | false => exact absurd (by rw [h4, hca]; rfl) h2
            | true => simp [removeCommand, hf, h1, h2, h3, h4, hca, fallbackShapes]
          | true =>
            cases h5 : ro fw.path true <;>
              simp [removeCommand, hf, h1, h2, h3, h4, h5, fallbackShapes]
  · intro hm hforce h1 h2
    simp [removeCommand, hf, hm, hforce, h1, h2]
  · by_cases h1 : wtd.path = m
    · simp [deleteSelected, hd, h1, fallbackShapes]
    · cases h2 : ca with
      | false => simp [deleteSelected, hd, h1, h2, fallbackShapes]
      | true =>
        cases h3 : ro wtd.path false with
        | true => simp [deleteSelected, hd, h1, h2, h3, fallbackShapes]
        | false =>
          cases h4 : ro wtd.path true <;>
            simp [deleteSelected, hd, h1, h2, h3, h4, fallbackShapes]
  · intro hm hca h1 h2
    simp [deleteSelected, hd, hm, hca, h1, h2]
  · unfold cleanRemoveOne
    split_ifs <;> simp [fallbackShapes]
  · intro h1 h2
    unfold cleanRemoveOne
    simp [h1, h2]

/-- Witness for C7: with both removal attempts failing, each path makes
exactly the plain call and the single forced call and reports failure. -/
theorem single_forced_fallback_witness :
    removeCommand [mainWt, featWt] "/repo" "feature" true true (fun _ _ => false)
      = (.failed, [("/repo-feature", false), ("/repo-feature", true)]) ∧
    deleteSelected [mainWt, featWt] 1 "/repo" true (fun _ _ => false)
      = (.deleteFailed, [("/repo-feature", false), ("/repo-feature", true)]) ∧
    cleanRemoveOne (fun _ _ => false) ⟨featWt, .merged⟩
      = (false, [("/repo-feature", false), ("/repo-feature", true)]) := by
  have h := single_forced_fallback [mainWt, featWt] "/repo" "feature" true true
    (fun _ _ => false) 1 featWt featWt ⟨featWt, .merged⟩ (by decide) (by decide)
  exact ⟨h.2.1 (by decide) rfl rfl rfl, h.2.2.2.1 (by decide) rfl rfl rfl,
    h.2.2.2.2.2 rfl rfl⟩

/-! ## C8: destructive removal requires confirmation unless forced -/

/-- C8: without the force flag, a negative confirmation answer leaves
the removal trace empty on every path; with the force flag set, the
remove subcommand never consults the confirmation answer. -/
theorem removal_requires_confirmation :
    (∀ (wl : List WorktreeInfo) (m iden : String) (ro : String → Bool → Bool),
      (removeCommand wl m iden false false ro).2 = []) ∧
    (∀ (wl : List WorktreeInfo) (m iden : String) (ro : String → Bool → Bool)
      (ca ca2 : Bool),
      removeCommand wl m iden true ca ro = removeCommand wl m iden true ca2 ro) ∧
    (∀ (env : GitEnv) (wl : List WorktreeInfo) (m : String)
      (sel : StaleWorktree → Bool) (ro : String → Bool → Bool),
      (cleanCommand env wl m sel false ro).2 = []) ∧
    (∀ (wl : List WorktreeInfo) (i : Nat) (m : String) (ro : String → Bool → Bool),
      (deleteSelected wl i m false ro).2 = []) := by
  refine ⟨?_, ?_, ?_, ?_⟩
  · intro wl m iden ro
    cases hfw : findWorktree wl iden with
    | none => simp [removeCommand, hfw]
    | some wt =>
      by_cases h1 : wt.path = m
      · simp [removeCommand, hfw, h1]
      · simp [removeCommand, hfw, h1]
  · intro wl m iden ro ca ca2
    cases hfw : findWorktree wl iden with
    | none => simp [removeCommand, hfw]
    | some wt => simp [removeCommand, hfw]
  · intro env wl m sel ro
    unfold cleanCommand
    by_cases h1 : (findStaleWorktrees env wl m).isEmpty
    · rw [if_pos h1]
    · rw [if_neg h1]
      by_cases h2 : ((findStaleWorktrees env wl m).filter sel).isEmpty
      · rw [if_pos h2]
      · rw [if_neg h2]
        rfl
  · intro wl i m ro
    cases hget : wl[i]? with
    | none => simp [deleteSelected, hget]
    | some wt =>
      by_cases h1 : wt.path = m
      · simp [deleteSelected, hget, h1]
      · simp [deleteSelected, hget, h1]

/-! ## C9: the interactive machine recovers to browsing on failure -/

/-- C9: in the interactive machine the terminal state is absorbing, every
action-completing event (creation, delete confirmation, push) lands in
the browsing state or the terminal state and in no other state, and a
failing external process lands in browsing with an error message in the
status bar. -/
theorem uiStep_failure_recovery :
    (∀ (env : UIEnv) (e : UIEvent), uiStep env .exited e = .exited) ∧
    (∀ (env : UIEnv) (st b : String) (t : Option AITool),
      browsingOrExited (uiStep env (.awaitingToolChoice st b) (.chooseTool t)) = true) ∧
    (∀ (env : UIEnv) (st : String) (wt : WorktreeInfo) (yes : Bool),
      browsingOrExited (uiStep env (.confirmingDelete st wt) (.answerDelete yes)) = true) ∧
    (∀ (env : UIEnv) (st : String),
      browsingOrExited (uiStep env (.browsing st) .keyPush) = true) ∧
    (∀ (env : UIEnv) (st b : String) (t : Option AITool), env.createOk = false →
      uiStep env (.awaitingToolChoice st b) (.chooseTool t)
        = .browsing ("Error: " ++ env.createErrMsg)) ∧
    (∀ (env : UIEnv) (st : String) (wt : WorktreeInfo),
      env.removeOk wt.path false = false → env.removeOk wt.path true = false →
      uiStep env (.confirmingDelete st wt) (.answerDelete true)
        = .browsing ("Error: " ++ env.removeErrMsg)) ∧
    (∀ (env : UIEnv) (st : String) (wt : WorktreeInfo) (b : String),
      env.worktrees[env.selectedIndex]? = some wt → wt.branch = some b →
      b ≠ "" → env.pushOk = false →
      uiStep env (.browsing st) .keyPush = .browsing ("Error: " ++ env.pushErrMsg)) := by
  refine ⟨?_, ?_, ?_, ?_, ?_, ?_, ?_⟩
  · intro env e
    cases e <;> rfl
  · intro env st b t
    cases hc : env.createOk with
    | false => simp [uiStep, hc, browsingOrExited]
    | true =>
      cases t with
      | none => simp [uiStep, hc, browsingOrExited]
      | some tool =>
        cases ht : env.toolAvailable tool <;>
          simp [uiStep, hc, ht, browsingOrExited]
  · intro env st wt yes
    cases yes with
    | false => simp [uiStep, browsingOrExited]
    | true =>
      cases h1 : env.removeOk wt.path false with
      | true => simp [uiStep, h1, browsingOrExited]
      | false =>
        cases h2 : env.removeOk wt.path true <;>
          simp [uiStep, h1, h2, browsingOrExited]
  · intro env st
    cases hw : env.worktrees[env.selectedIndex]? with
    | none => simp [uiStep, hw, browsingOrExited]
    | some wt =>
      cases hbr : wt.branch with
      | none => simp [uiStep, hw, hbr, browsingOrExited]
      | some b =>
        by_cases hb : b = ""
        · simp [uiStep, hw, hbr, hb, browsingOrExited]
        · cases hp : env.pushOk <;>
            simp [uiStep, hw, hbr, hb, hp, browsingOrExited]
  · intro env st b t hc
    cases t <;> simp [uiStep, hc]
  · intro env st wt h1 h2
    simp [uiStep, h1, h2]
  · intro env st wt b hwt hbr hb hp
    simp [uiStep, hwt, hbr, hb, hp]

/-- Witness for C9 at an environment whose external processes all fail. -/
theorem uiStep_failure_recovery_witness :
    uiStep uiEnvFail (.awaitingToolChoice "" "feature") (.chooseTool (some .claude))
      = .browsing ("Error: " ++ "create boom") ∧
    uiStep uiEnvFail (.confirmingDelete "" featWt) (.answerDelete true)
      = .browsing ("Error: " ++ "remove boom") ∧
    uiStep uiEnvFail (.browsing "") .keyPush
      = .browsing ("Error: " ++ "push boom") :=
  ⟨uiStep_failure_recovery.2.2.2.2.1 uiEnvFail "" "feature" (some .claude) rfl,
   uiStep_failure_recovery.2.2.2.2.2.1 uiEnvFail "" featWt rfl rfl,
   uiStep_failure_recovery.2.2.2.2.2.2 uiEnvFail "" featWt "feature" (by decide)
     rfl (by decide) rfl⟩

/-! ## C10: the environment-file filter -/

/-- C10: a filename is selected by findEnvFiles exactly when it occurs in
the directory listing, is the literal .env or begins with .env., and
does not end with .example, .sample, or .template; copyEnvFiles attempts
to copy precisely these candidates. -/
theorem findEnvFiles_spec (files : List String) (f : String) :
    f ∈ findEnvFiles files ↔
      f ∈ files ∧ (f = ".env" ∨ strStartsWith f ".env." = true) ∧
      strEndsWith f ".example" = false ∧ strEndsWith f ".sample" = false ∧
      strEndsWith f ".template" = false := by
  unfold findEnvFiles
  constructor
  · intro h
    rw [List.mem_filter] at h
    obtain ⟨hg, hfilt⟩ := h
    rw [List.mem_filter] at hg
    obtain ⟨hmem, hglob⟩ := hg
    unfold envFileFilter at hfilt
    split_ifs at hfilt with h1 h2
    refine ⟨hmem, ?_, ?_, ?_, ?_⟩
    · by_cases hfe : f = ".env"
      · exact Or.inl hfe
      · by_cases hs : strStartsWith f ".env." = true
        · exact Or.inr hs
        · exact absurd (by simp [hfe, Bool.eq_false_iff.mpr hs]) h1
    · cases he : strEndsWith f ".example" with
      | false => rfl
      | true => exact absurd (by simp [he]) h2
    · cases he : strEndsWith f ".sample" with
      | false => rfl
      | true => exact absurd (by simp [he]) h2
    · cases he : strEndsWith f ".template" with
      | false => rfl
      | true => exact absurd (by simp [he]) h2
  · rintro ⟨hmem, hok, he1, he2, he3⟩
    have hglob : strStartsWith f ".env" = true := by
      rcases hok with rfl | h
      · decide
      · exact startsWith_env_of_envDot f h
    have hfilt : envFileFilter f = true := by
      unfold envFileFilter
      split_ifs with h1 h2
      · rcases hok with rfl | h
        · simp at h1
        · rw [h] at h1
          simp at h1
      · rw [he1, he2, he3] at h2
        simp at h2
      · rfl
    rw [List.mem_filter]
    refine ⟨?_, hfilt⟩
    rw [List.mem_filter]
    exact ⟨hmem, hglob⟩

/-- Witness for C10: a concrete selection decided through the
characterization. -/
theorem findEnvFiles_spec_witness :
    ".env.local" ∈ findEnvFiles [".env.local", ".env.example", "env", ".envrc"] :=
  (findEnvFiles_spec [".env.local", ".env.example", "env", ".envrc"] ".env.local").mpr
    ⟨by decide, Or.inr (by decide), by decide, by decide, by decide⟩
